import Mathlib

/-!
Verification development for the forkable, checkpointable AVM world-state
manager (AvmPersistableStateManager) of the aztec-packages simulator.

The state manager itself is translated from the TypeScript source
(journal/state manager module).  Its collaborators - the Value Cache
(PublicStorage), the Append Set Cache (NullifierManager), the side-effect
trace and the persistent indexed-tree accessor - are not part of the sampled
sources; they are modelled from the specification, and each such definition
carries a doc comment saying so.

Machine integers: field elements enter this component only through equality,
unsigned comparison and the zero test, so they are modelled as Nat.
-/

namespace Avm

/-- Field elements.  The state manager only compares them as unsigned
integers, tests them for zero and moves them around, so Nat is a faithful
carrier. -/
abbrev Fr := Nat

/-- Modelled from the spec: hashing and field-arithmetic primitives (siloing,
leaf-slot computation) are opaque pure functions supplied externally
(spec section 1).  They are modelled by an injective pairing function whose
outputs avoid the sentinel key 0. -/
def pairHash (a b : Fr) : Fr := (a + b) * (a + b + 1) / 2 + b + 1

/-- Modelled from the spec: computePublicDataTreeLeafSlot silos an
(address, slot) pair into a single public data tree leaf-slot key. -/
def computePublicDataTreeLeafSlot (contractAddress slot : Fr) : Fr :=
  pairHash contractAddress slot

/-- Modelled from the spec: siloNullifier hashes a raw value together with a
contract address so identical raw values from different contracts never
collide. -/
def siloNullifier (contractAddress nullifier : Fr) : Fr :=
  pairHash contractAddress nullifier

/-- Preimage of an indexed-tree leaf: key, value, and the sorted linked-list
successor pointers.  For the public data tree the key is the leaf slot and
the value is the stored value; for the nullifier tree the key is the
nullifier and the value component is unused (kept 0). -/
structure IndexedLeaf where
  key : Fr
  value : Fr
  nextKey : Fr
  nextIndex : Nat
deriving Repr, DecidableEq

/-- The all-zero leaf preimage (NullifierLeafPreimage.empty). -/
def emptyLeaf : IndexedLeaf := ⟨0, 0, 0, 0⟩

/-- An indexed tree is its list of leaf preimages, position = leaf index. -/
abbrev IndexedTree := List IndexedLeaf

/-- The keys stored in an indexed tree, in leaf-index order. -/
def treeKeys (tree : IndexedTree) : List Fr := tree.map (·.key)

/-- Modelled from the spec: the persistent accessor operation
getPreviousValueIndex(treeId, key) returns the index of the leaf whose key is
the largest key at most the queried key, plus whether that leaf's key equals
the queried key exactly; none when no such leaf exists. -/
def getPreviousValueIndex (tree : IndexedTree) (key : Fr) : Option (Nat × Bool) :=
  match (tree.enum.filter fun p => decide (p.2.key ≤ key)).argmax (fun p => p.2.key) with
  | none => none
  | some (i, leaf) => some (i, leaf.key == key)

/-- Well-formedness of an indexed tree's threaded linked list, the
precondition the spec states for the persistent accessor: a leaf with
nextIndex 0 is the maximum, and otherwise nextKey is a strictly larger key
that is itself present in the tree. -/
def TreeWF (tree : IndexedTree) : Prop :=
  ∀ l ∈ tree,
    (l.nextIndex = 0 → ∀ l' ∈ tree, l'.key ≤ l.key) ∧
    (l.nextIndex ≠ 0 → l.key < l.nextKey ∧ l.nextKey ∈ treeKeys tree)

theorem getPreviousValueIndex_spec {tree : IndexedTree} {key : Fr} {i : Nat} {ap : Bool}
    (h : getPreviousValueIndex tree key = some (i, ap)) :
    ∃ leaf, tree[i]? = some leaf ∧ leaf.key ≤ key ∧ ap = (leaf.key == key) ∧
      ∀ l ∈ tree, l.key ≤ key → l.key ≤ leaf.key := by
  unfold getPreviousValueIndex at h
  cases hm : (tree.enum.filter fun p => decide (p.2.key ≤ key)).argmax (fun p => p.2.key) with
  | none => rw [hm] at h; exact absurd h (by simp)
  | some p =>
    rw [hm] at h
    obtain ⟨j, leaf⟩ := p
    obtain ⟨hji, hap⟩ : j = i ∧ (leaf.key == key) = ap := by simpa using h
    rw [← hji]
    have hmem : (j, leaf) ∈ (tree.enum.filter fun p => decide (p.2.key ≤ key)) :=
      List.argmax_mem (by rw [Option.mem_def, hm])
    have hfil := List.mem_filter.mp hmem
    have hget : tree[j]? = some leaf := List.mk_mem_enum_iff_getElem?.mp hfil.1
    have hle : leaf.key ≤ key := by simpa using hfil.2
    refine ⟨leaf, hget, hle, hap.symm, ?_⟩
    intro l hl hlk
    obtain ⟨n, hn⟩ := List.mem_iff_getElem?.mp hl
    have hmem' : (n, l) ∈ (tree.enum.filter fun p => decide (p.2.key ≤ key)) :=
      List.mem_filter.mpr ⟨List.mk_mem_enum_iff_getElem?.mpr hn, by simpa⟩
    have := List.not_lt_of_mem_argmax hmem' (by rw [Option.mem_def, hm])
    exact Nat.not_lt.mp this

theorem getPreviousValueIndex_isSome {tree : IndexedTree} {key : Fr}
    (h : ∃ l ∈ tree, l.key ≤ key) : (getPreviousValueIndex tree key).isSome = true := by
  obtain ⟨l, hl, hlk⟩ := h
  obtain ⟨n, hn⟩ := List.mem_iff_getElem?.mp hl
  have hmem : (n, l) ∈ (tree.enum.filter fun p => decide (p.2.key ≤ key)) :=
    List.mem_filter.mpr ⟨List.mk_mem_enum_iff_getElem?.mpr hn, by simpa⟩
  have hne : (tree.enum.filter fun p => decide (p.2.key ≤ key)) ≠ [] :=
    List.ne_nil_of_mem hmem
  unfold getPreviousValueIndex
  cases hm : (tree.enum.filter fun p => decide (p.2.key ≤ key)).argmax (fun p => p.2.key) with
  | none => exact absurd (List.argmax_eq_none.mp hm) hne
  | some p => obtain ⟨i, leaf⟩ := p; rfl

/-- When the queried key is present in the tree, the lookup lands on a leaf
carrying exactly that key and reports it as already present. -/
theorem getPreviousValueIndex_present {tree : IndexedTree} {key : Fr} {i : Nat} {ap : Bool}
    (hkey : key ∈ treeKeys tree)
    (h : getPreviousValueIndex tree key = some (i, ap)) :
    ∃ leaf, tree[i]? = some leaf ∧ leaf.key = key ∧ ap = true := by
  obtain ⟨leaf, hget, hle, hap, hmax⟩ := getPreviousValueIndex_spec h
  obtain ⟨l, hl, hlk⟩ := List.mem_map.mp hkey
  have : key ≤ leaf.key := hlk ▸ hmax l hl (le_of_eq hlk)
  have hkeq : leaf.key = key := le_antisymm hle this
  exact ⟨leaf, hget, hkeq, by simp [hap, hkeq]⟩

/-- When the lookup reports the key as absent, the queried key is indeed not
one of the tree's keys. -/
theorem getPreviousValueIndex_absent {tree : IndexedTree} {key : Fr} {i : Nat}
    (h : getPreviousValueIndex tree key = some (i, false)) :
    key ∉ treeKeys tree := by
  intro hkey
  obtain ⟨leaf, _, _, hap⟩ := getPreviousValueIndex_present hkey h
  exact absurd hap (by simp)

/-- The low-leaf skip property: on a well-formed tree, a lookup that reports
the key absent returns a low leaf that skips over the queried key. -/
theorem lowLeaf_skips {tree : IndexedTree} {key : Fr} {i : Nat} {leaf : IndexedLeaf}
    (hwf : TreeWF tree)
    (h : getPreviousValueIndex tree key = some (i, false))
    (hget : tree[i]? = some leaf) :
    leaf.key < key ∧ (leaf.nextIndex = 0 ∨ leaf.nextKey > key) := by
  obtain ⟨leaf', hget', hle, hap, hmax⟩ := getPreviousValueIndex_spec h
  rw [hget] at hget'
  injection hget' with hget'
  subst hget'
  have hne : leaf.key ≠ key := by
    intro hk
    have : (leaf.key == key) = true := by simp [hk]
    rw [← hap] at this
    exact absurd this (by simp)
  have hlt : leaf.key < key := lt_of_le_of_ne hle hne
  refine ⟨hlt, ?_⟩
  by_cases hz : leaf.nextIndex = 0
  · exact Or.inl hz
  · right
    have hmem : leaf ∈ tree := List.getElem?_mem hget
    obtain ⟨-, hnz⟩ := hwf leaf hmem
    obtain ⟨hltnext, hnextmem⟩ := hnz hz
    by_contra hcon
    have hnk : leaf.nextKey ≤ key := Nat.not_lt.mp hcon
    obtain ⟨l', hl', hlk'⟩ := List.mem_map.mp hnextmem
    have : l'.key ≤ leaf.key := hmax l' hl' (hlk' ▸ hnk)
    rw [hlk'] at this
    exact absurd hltnext (Nat.not_lt.mpr this)

/-- Modelled from the spec: sibling-path computation belongs to the external
Merkle storage engine (spec sections 1 and 6); no claim depends on path
contents, so paths are modelled as opaque empty lists. -/
def getSiblingPath (tree : IndexedTree) (index : Nat) : List Fr := []

/-- Modelled from the spec: sibling path in an append-only tree (note hash
tree); contents opaque, as for getSiblingPath. -/
def appendTreeSiblingPath (tree : List Fr) (index : Nat) : List Fr := []

/-- Witness data for one leaf returned by the accessor's insertion
operations: leaf preimage, leaf index and sibling path. -/
structure LeafWitness where
  leafPreimage : IndexedLeaf
  index : Nat
  siblingPath : List Fr
deriving Repr, DecidableEq

/-- Modelled from the spec (section 4.4): sequentialInsert(treeId, key, value).
Locate the low leaf; if the key is already present, update that leaf's value
in place and return only low-leaf witness data (no insertion witness);
otherwise splice a new leaf between the low leaf and its successor, append
it, and return both the pre-splice low-leaf witness and the new-leaf witness.
The spec leaves the update-branch witness preimage open (section 9 records it
as an open question whether it carries the pre- or post-update value); it is
modelled as the pre-update preimage, parallel to the splice branch's
pre-splice low-leaf witness.  Returns none when no low leaf exists. -/
def sequentialInsert (tree : IndexedTree) (key value : Fr) :
    Option (IndexedTree × LeafWitness × Option LeafWitness) :=
  match getPreviousValueIndex tree key with
  | none => none
  | some (i, alreadyPresent) =>
    match tree[i]? with
    | none => none
    | some low =>
      if alreadyPresent then
        some (tree.set i { low with value := value },
              ⟨low, i, getSiblingPath tree i⟩, none)
      else
        some (tree.set i { low with nextKey := key, nextIndex := tree.length } ++
                [⟨key, value, low.nextKey, low.nextIndex⟩],
              ⟨low, i, getSiblingPath tree i⟩,
              some ⟨⟨key, value, low.nextKey, low.nextIndex⟩, tree.length,
                    getSiblingPath
                      (tree.set i { low with nextKey := key, nextIndex := tree.length } ++
                        [⟨key, value, low.nextKey, low.nextIndex⟩]) tree.length⟩)

/-- Positions with distinct indices but equal keys cannot both exist when the
key list has no duplicates. -/
theorem nodupKeys_getElem?_inj {tree : IndexedTree} (hnd : (treeKeys tree).Nodup)
    {i j : Nat} {a b : IndexedLeaf} (ha : tree[i]? = some a) (hb : tree[j]? = some b)
    (hk : a.key = b.key) : i = j := by
  obtain ⟨hi, rfl⟩ := List.getElem?_eq_some_iff.mp ha
  obtain ⟨hj, rfl⟩ := List.getElem?_eq_some_iff.mp hb
  have hi' : i < (treeKeys tree).length := by simpa [treeKeys] using hi
  have hj' : j < (treeKeys tree).length := by simpa [treeKeys] using hj
  have hkey : (treeKeys tree).get ⟨i, hi'⟩ = (treeKeys tree).get ⟨j, hj'⟩ := by
    simpa [treeKeys] using hk
  exact congrArg Fin.val ((List.Nodup.get_inj_iff hnd).mp hkey)

/-- After a sequentialInsert of (key, value) into a tree with duplicate-free
keys, looking the key up again reports it present and the leaf found carries
the inserted value. -/
theorem sequentialInsert_lookup {tree tree' : IndexedTree} {key value : Fr}
    {loW : LeafWitness} {insW : Option LeafWitness}
    (hnd : (treeKeys tree).Nodup)
    (h : sequentialInsert tree key value = some (tree', loW, insW)) :
    ∃ j leaf, getPreviousValueIndex tree' key = some (j, true) ∧
      tree'[j]? = some leaf ∧ leaf.key = key ∧ leaf.value = value := by
  cases hpv : getPreviousValueIndex tree key with
  | none => simp only [sequentialInsert, hpv] at h; exact Option.noConfusion h
  | some p =>
    obtain ⟨i, ap⟩ := p
    simp only [sequentialInsert, hpv] at h
    cases hlow : tree[i]? with
    | none => simp only [hlow] at h; exact Option.noConfusion h
    | some low =>
      simp only [hlow] at h
      have hilen : i < tree.length := (List.getElem?_eq_some_iff.mp hlow).1
      -- Main schema: find a leaf of tree' with the queried key whose value is
      -- the written value, and show every leaf of tree' with that key has it.
      have main : (key ∈ treeKeys tree') ∧
          (∀ (j' : Nat) (leaf' : IndexedLeaf),
            tree'[j']? = some leaf' → leaf'.key = key → leaf'.value = value) := by
        cases hap : ap with
        | true =>
          rw [hap] at h hpv
          have htree : tree.set i { low with value := value } = tree' :=
            congrArg (fun q => q.1) (Option.some.inj h)
          have hkeq : low.key = key := by
            obtain ⟨leaf0, hget0, -, hap0, -⟩ := getPreviousValueIndex_spec hpv
            rw [hlow] at hget0
            injection hget0 with hget0
            subst hget0
            have hbeq : (low.key == key) = true := by rw [← hap0]
            simpa using hbeq
          subst htree
          constructor
          · refine List.mem_map.mpr ⟨{ low with value := value }, ?_, hkeq⟩
            exact List.mem_set tree i hilen _
          · intro j' leaf' hj' hk'
            by_cases hji : j' = i
            · subst hji
              rw [List.getElem?_set_self hilen] at hj'
              injection hj' with hj'
              subst hj'
              rfl
            · rw [List.getElem?_set_ne (fun hcon => hji hcon.symm)] at hj'
              exact absurd (nodupKeys_getElem?_inj hnd hj' hlow (by rw [hk', hkeq]))
                hji
        | false =>
          rw [hap] at h hpv
          have htree : tree.set i { low with nextKey := key, nextIndex := tree.length } ++
              [⟨key, value, low.nextKey, low.nextIndex⟩] = tree' :=
            congrArg (fun q => q.1) (Option.some.inj h)
          have habs : key ∉ treeKeys tree := getPreviousValueIndex_absent hpv
          subst htree
          constructor
          · refine List.mem_map.mpr ⟨⟨key, value, low.nextKey, low.nextIndex⟩, ?_, rfl⟩
            exact List.mem_append_right _ (List.mem_singleton.mpr rfl)
          · intro j' leaf' hj' hk'
            have hsetlen : (tree.set i { low with nextKey := key, nextIndex := tree.length }).length
                = tree.length := List.length_set tree i _
            by_cases hjlen : j' < tree.length
            · rw [List.getElem?_append_left (by rw [hsetlen]; exact hjlen)] at hj'
              by_cases hji : j' = i
              · subst hji
                rw [List.getElem?_set_self (by rw [hsetlen] at *; exact hilen)] at hj'
                injection hj' with hj'
                subst hj'
                exact absurd (List.mem_map.mpr ⟨low, List.getElem?_mem hlow, hk'⟩) habs
              · rw [List.getElem?_set_ne (fun hcon => hji hcon.symm)] at hj'
                exact absurd (List.mem_map.mpr ⟨leaf', List.getElem?_mem hj', hk'⟩) habs
            · have hjlen' : tree.length ≤ j' := Nat.le_of_not_lt hjlen
              rw [List.getElem?_append_right (by rw [hsetlen]; exact hjlen')] at hj'
              rw [hsetlen] at hj'
              cases hjeq : j' - tree.length with
              | zero =>
                rw [hjeq] at hj'
                rw [List.getElem?_cons_zero] at hj'
                have hleaf : leaf' = ⟨key, value, low.nextKey, low.nextIndex⟩ :=
                  (Option.some.inj hj').symm
                rw [hleaf]
              | succ m =>
                rw [hjeq] at hj'
                exact absurd hj' (by simp)
      obtain ⟨hpresent, hP⟩ := main
      obtain ⟨lf, hlf, hlfkey⟩ := List.mem_map.mp hpresent
      have hsome := @getPreviousValueIndex_isSome tree' key
        ⟨lf, hlf, le_of_eq hlfkey⟩
      obtain ⟨q, hq⟩ := Option.isSome_iff_exists.mp hsome
      obtain ⟨j, ap'⟩ := q
      obtain ⟨leaf, hget, hkeq, hap'⟩ := getPreviousValueIndex_present hpresent hq
      refine ⟨j, leaf, ?_, hget, hkeq, hP j leaf hget hkeq⟩
      rw [hq, hap']

/-- Shallow model of SerializableContractInstance: only the class id is
consulted by the sampled operations. -/
structure ContractInstance where
  contractClassId : Fr
deriving Repr, DecidableEq

/-- Shallow model of a contract class: the fields getBytecode reads. -/
structure ContractClass where
  artifactHash : Fr
  privateFunctionsRoot : Fr
  packedBytecode : List Fr
deriving Repr, DecidableEq

/-- The mutable tree state of the persistent accessor, snapshotted by
checkpoints. -/
structure TreeState where
  publicDataTree : IndexedTree
  nullifierTree : IndexedTree
  noteHashTree : List Fr
  l1ToL2MessageTree : List Fr
deriving Repr, DecidableEq

/-- Modelled from the spec (section 6): the persistent world-state accessor -
the trees, the contract instance / class stores consulted by
getContractInstance and getBytecode, and the LIFO checkpoint stack. -/
structure WorldDB where
  trees : TreeState
  contractInstances : List (Fr × ContractInstance)
  contractClasses : List (Fr × ContractClass)
  bytecodeCommitments : List (Fr × Fr)
  checkpoints : List TreeState
deriving Repr, DecidableEq

/-- Modelled from the spec: createCheckpoint pushes a snapshot of the mutable
tree state onto the checkpoint stack. -/
def createCheckpoint (db : WorldDB) : WorldDB :=
  { db with checkpoints := db.trees :: db.checkpoints }

/-- Modelled from the spec: revertCheckpoint restores the most recent
snapshot, undoing every tree write made since; none when no checkpoint is
open. -/
def revertCheckpoint (db : WorldDB) : Option WorldDB :=
  match db.checkpoints with
  | [] => none
  | t :: rest => some { db with trees := t, checkpoints := rest }

/-- Modelled from the spec: commitCheckpoint closes the most recent
checkpoint keeping all writes; none when no checkpoint is open. -/
def commitCheckpoint (db : WorldDB) : Option WorldDB :=
  match db.checkpoints with
  | [] => none
  | _ :: rest => some { db with checkpoints := rest }

/-- Contract-instance lookup on the persistent accessor. -/
def WorldDB.getContractInstance (db : WorldDB) (contractAddress : Fr) :
    Option ContractInstance :=
  (db.contractInstances.find? fun p => p.1 == contractAddress).map (·.2)

/-- Contract-class lookup on the persistent accessor. -/
def WorldDB.getContractClass (db : WorldDB) (classId : Fr) : Option ContractClass :=
  (db.contractClasses.find? fun p => p.1 == classId).map (·.2)

/-- Bytecode-commitment lookup on the persistent accessor. -/
def WorldDB.getBytecodeCommitment (db : WorldDB) (classId : Fr) : Option Fr :=
  (db.bytecodeCommitments.find? fun p => p.1 == classId).map (·.2)

/-- Raw leaf value of the note hash tree at a leaf index (getCommitmentValue). -/
def WorldDB.getCommitmentValue (db : WorldDB) (leafIndex : Nat) : Option Fr :=
  db.trees.noteHashTree[leafIndex]?

/-- Modelled from the spec (4.1): on a Value Cache miss the persistent
accessor is queried at the siloed leaf-slot key, returning 0 if never
written. -/
def storageRead (db : WorldDB) (contractAddress slot : Fr) : Fr :=
  match getPreviousValueIndex db.trees.publicDataTree
      (computePublicDataTreeLeafSlot contractAddress slot) with
  | some (i, true) => ((db.trees.publicDataTree[i]?).map (·.value)).getD 0
  | _ => 0

/-- Modelled from the spec: existence of a siloed nullifier in the persistent
nullifier tree, the callback the Append Set Cache consults. -/
def persistentNullifierExists (db : WorldDB) (nullifier : Fr) : Bool :=
  match getPreviousValueIndex db.trees.nullifierTree nullifier with
  | some (_, ap) => ap
  | none => false

/-- Modelled from the spec (4.1, PublicStorage): the Value Cache - the fork's
own overlay of (address, slot, value) entries, newest first, plus the chain
of ancestor overlays read through on a miss. -/
structure PublicStorage where
  own : List (Fr × Fr × Fr)
  ancestors : List (List (Fr × Fr × Fr))
deriving Repr, DecidableEq

/-- Entry predicate for a Value Cache lookup. -/
def storageEntryMatch (contractAddress slot : Fr) : Fr × Fr × Fr → Bool :=
  fun e => e.1 == contractAddress && e.2.1 == slot

/-- Modelled from the spec: write stores into the overlay unconditionally,
overwriting any prior pending value for that key. -/
def PublicStorage.write (ps : PublicStorage) (contractAddress slot value : Fr) :
    PublicStorage :=
  { ps with own := (contractAddress, slot, value) :: ps.own }

/-- Cache-only lookup through the overlay chain (own frame first). -/
def PublicStorage.readCached (ps : PublicStorage) (contractAddress slot : Fr) : Option Fr :=
  (ps.own :: ps.ancestors).findSome? fun frame =>
    (frame.find? (storageEntryMatch contractAddress slot)).map (·.2.2)

/-- Result of a Value Cache read: resolved value and whether it was cached. -/
structure StorageRead where
  value : Fr
  cached : Bool
deriving Repr, DecidableEq

/-- Modelled from the spec: read returns the overlay's value if present,
otherwise the persistent value (default 0). -/
def PublicStorage.read (ps : PublicStorage) (db : WorldDB) (contractAddress slot : Fr) :
    StorageRead :=
  match ps.readCached contractAddress slot with
  | some v => ⟨v, true⟩
  | none => ⟨storageRead db contractAddress slot, false⟩

/-- Modelled from the spec: fork produces a child overlay reading through to
the parent on a miss but writing only to itself. -/
def PublicStorage.fork (ps : PublicStorage) : PublicStorage :=
  ⟨[], ps.own :: ps.ancestors⟩

/-- Modelled from the spec: acceptAndMerge copies the child's entries into
the parent's overlay, overwriting. -/
def PublicStorage.acceptAndMerge (ps child : PublicStorage) : PublicStorage :=
  { ps with own := child.own ++ ps.own }

/-- Modelled from the spec (4.2, NullifierManager): the Append Set Cache -
the fork's own pending nullifiers plus the ancestor chain. -/
structure NullifierManager where
  own : List Fr
  ancestors : List (List Fr)
deriving Repr, DecidableEq

/-- Membership in the overlay chain only. -/
def NullifierManager.cachedExists (nm : NullifierManager) (nullifier : Fr) : Bool :=
  (nm.own :: nm.ancestors).any fun frame => frame.contains nullifier

/-- Modelled from the spec: append adds to the pending set; a duplicate
append of an existing key is not rejected here (distinctness is the state
manager's responsibility) and is idempotent for cache purposes. -/
def NullifierManager.append (nm : NullifierManager) (nullifier : Fr) : NullifierManager :=
  if nm.cachedExists nullifier then nm else { nm with own := nullifier :: nm.own }

/-- Modelled from the spec: checkExists reports (exists, isPending)
considering both this overlay chain and, through the supplied callback, the
persistent accessor. -/
def NullifierManager.checkExists (nm : NullifierManager) (db : WorldDB) (nullifier : Fr) :
    Bool × Bool :=
  let pending := nm.cachedExists nullifier
  (pending || persistentNullifierExists db nullifier, pending)

/-- Modelled from the spec: fork produces a child overlay over this one. -/
def NullifierManager.fork (nm : NullifierManager) : NullifierManager :=
  ⟨[], nm.own :: nm.ancestors⟩

/-- Modelled from the spec: acceptAndMerge copies the child's pending
nullifiers into the parent's overlay. -/
def NullifierManager.acceptAndMerge (nm child : NullifierManager) : NullifierManager :=
  { nm with own := child.own ++ nm.own }

/-- One recorded side effect (hint) of the trace, one constructor per trace
call of the side-effect trace interface used by the state manager; witness
components are present exactly when Merkle mode supplies them. -/
inductive TraceEvent where
  | publicStorageWrite (contractAddress slot value : Fr) (protocolWrite : Bool)
      (lowLeafWitness : Option (IndexedLeaf × Nat × List Fr))
      (newLeafPreimage : Option IndexedLeaf)
      (insertionPath : Option (List Fr))
  | publicStorageRead (contractAddress slot value : Fr)
      (leafWitness : Option (IndexedLeaf × Nat × List Fr))
  | noteHashCheck (contractAddress leafValue leafIndex : Fr) (found : Bool)
      (path : Option (List Fr))
  | newNoteHash (noteHash : Fr) (witness : Option (Fr × List Fr))
  | nullifierCheck (nullifier : Fr) (found : Bool)
      (leafWitness : Option (IndexedLeaf × Nat × List Fr))
  | newNullifier (nullifier : Fr)
      (witness : Option (IndexedLeaf × Nat × List Fr × List Fr))
  | l1ToL2MessageCheck (contractAddress leafValue leafIndex : Fr) (found : Bool)
      (path : Option (List Fr))
  | newL2ToL1Message (contractAddress recipient content : Fr)
  | publicLog (contractAddress : Fr) (fields : List Fr)
  | contractInstanceRetrieval (contractAddress : Fr) (found : Bool)
      (inst : Option ContractInstance)
      (leafWitness : Option (IndexedLeaf × Nat × List Fr))
  | bytecodeRetrieval (contractAddress : Fr) (found : Bool)
      (leafWitness : Option (IndexedLeaf × Nat × List Fr))
  | forkResolved (reverted : Bool)
deriving Repr, DecidableEq

/-- Modelled from the spec (section 6): the side-effect trace - an ordered
event list; per-operation trace calls append one event. -/
structure Trace where
  events : List TraceEvent
deriving Repr, DecidableEq

/-- Append one traced side effect. -/
def Trace.traceEvent (t : Trace) (e : TraceEvent) : Trace := ⟨t.events ++ [e]⟩

/-- Modelled from the spec: trace fork starts an empty child trace. -/
def Trace.fork (t : Trace) : Trace := ⟨[]⟩

/-- Modelled from the spec: merge(childTrace, reverted) incorporates the
child's events into the parent, recording whether the fork reverted. -/
def Trace.merge (t child : Trace) (reverted : Bool) : Trace :=
  ⟨t.events ++ child.events ++ [.forkResolved reverted]⟩

/-- Failure modes: one constructor per fatal assert of the source plus the
single recoverable error, NullifierCollisionError. -/
inductive AvmError where
  | doubleMerge
  | checkpointUnderflow
  | insertionFailed
  | valueMismatchWrite
  | valueMismatchRead
  | publicDataSkipInvariant
  | nullifierSkipInvariant
  | nullifierTreeDesync
  | contractInstanceDesync
  | lowLeafIndexNotFound
  | lowLeafPreimageNotFound
  | contractClassMissing
  | bytecodeCommitmentMissing
  | nullifierCollision
deriving Repr, DecidableEq

/-- The state manager (AvmPersistableStateManager): one-shot resolution flag,
side-effect trace, Value Cache, Append Set Cache, the Merkle-mode switch
fixed at construction and the transaction's first nullifier.  The shared
persistent accessor is threaded explicitly through every operation.  The
ephemeral forest field of the source is omitted: every tree operation of the
sampled code goes through the accessor, the forest's uses being commented
out. -/
structure AvmPersistableStateManager where
  alreadyMergedIntoParent : Bool
  trace : Trace
  publicStorage : PublicStorage
  nullifiers : NullifierManager
  doMerkleOperations : Bool
  firstNullifier : Fr
deriving Repr, DecidableEq

deriving instance DecidableEq for Except

/-- Result of one state-manager operation: the outcome or thrown error,
together with the state manager and accessor as the operation left them -
mutations made before a throw persist, as in the source. -/
structure OpResult (α : Type) where
  result : Except AvmError α
  sm : AvmPersistableStateManager
  db : WorldDB
deriving Repr, DecidableEq

/-- Result of merge / reject: outcome plus parent, forked child (one-shot
flag possibly consumed) and accessor. -/
structure MergeResult where
  result : Except AvmError Unit
  parent : AvmPersistableStateManager
  forked : AvmPersistableStateManager
  db : WorldDB
deriving Repr, DecidableEq

/-- fork(): open a checkpoint on the persistent accessor and construct a
child state manager with forked trace and caches, sharing the first
nullifier. -/
def AvmPersistableStateManager.fork (sm : AvmPersistableStateManager) (db : WorldDB) :
    AvmPersistableStateManager × WorldDB :=
  (⟨false, sm.trace.fork, sm.publicStorage.fork, sm.nullifiers.fork,
    sm.doMerkleOperations, sm.firstNullifier⟩,
   createCheckpoint db)

/-- The private _merge(forkedState, reverted): assert the fork is unresolved
and mark it resolved, merge the Value Cache, the Append Set Cache and the
trace into the parent (unconditionally, before branching on reverted), then
revert the checkpoint when rejecting or commit it when merging. -/
def AvmPersistableStateManager._merge (sm forkedState : AvmPersistableStateManager)
    (db : WorldDB) (reverted : Bool) : MergeResult :=
  if forkedState.alreadyMergedIntoParent then
    ⟨.error .doubleMerge, sm, forkedState, db⟩
  else
    let forked := { forkedState with alreadyMergedIntoParent := true }
    let merged : AvmPersistableStateManager := { sm with
      publicStorage := sm.publicStorage.acceptAndMerge forked.publicStorage,
      nullifiers := sm.nullifiers.acceptAndMerge forked.nullifiers,
      trace := sm.trace.merge forked.trace reverted }
    if reverted then
      match revertCheckpoint db with
      | none => ⟨.error .checkpointUnderflow, merged, forked, db⟩
      | some db1 => ⟨.ok (), merged, forked, db1⟩
    else
      match commitCheckpoint db with
      | none => ⟨.error .checkpointUnderflow, merged, forked, db⟩
      | some db1 => ⟨.ok (), merged, forked, db1⟩

/-- merge(forkedState): accept forked modifications and traced side effects. -/
def AvmPersistableStateManager.merge (sm forkedState : AvmPersistableStateManager)
    (db : WorldDB) : MergeResult :=
  sm._merge forkedState db false

/-- reject(forkedState): reject forked modifications, keep traced hints. -/
def AvmPersistableStateManager.reject (sm forkedState : AvmPersistableStateManager)
    (db : WorldDB) : MergeResult :=
  sm._merge forkedState db true

/-- getLeafOrLowLeafInfo(treeId, key): the accessor's previous-value index
(asserted found), then that leaf's preimage (asserted present); returns
(preimage, leafIndex, alreadyPresent). -/
def getLeafOrLowLeafInfo (tree : IndexedTree) (key : Fr) :
    Except AvmError (IndexedLeaf × Nat × Bool) :=
  match getPreviousValueIndex tree key with
  | none => .error .lowLeafIndexNotFound
  | some (leafIndex, alreadyPresent) =>
    match tree[leafIndex]? with
    | none => .error .lowLeafPreimageNotFound
    | some leafPreimage => .ok (leafPreimage, leafIndex, alreadyPresent)

/-- writeStorage(contractAddress, slot, value, protocolWrite): compute the
leaf slot and write the Value Cache; in Merkle mode sequential-insert into
the public data tree and trace the write with the low-leaf witness and, on a
fresh slot, the new-leaf witness - the no-insertion branch asserts the
witness value equals the written value; non-Merkle mode traces a value-only
hint. -/
def AvmPersistableStateManager.writeStorage (sm : AvmPersistableStateManager) (db : WorldDB)
    (contractAddress slot value : Fr) (protocolWrite : Bool) : OpResult Unit :=
  let leafSlot := computePublicDataTreeLeafSlot contractAddress slot
  let sm1 := { sm with publicStorage := sm.publicStorage.write contractAddress slot value }
  if sm1.doMerkleOperations then
    match sequentialInsert db.trees.publicDataTree leafSlot value with
    | none => ⟨.error .insertionFailed, sm1, db⟩
    | some (tree1, lowW, insW) =>
      let db1 := { db with trees := { db.trees with publicDataTree := tree1 } }
      match insW with
      | none =>
        if lowW.leafPreimage.value = value then
          let ev : TraceEvent := .publicStorageWrite contractAddress slot value protocolWrite
            (some (lowW.leafPreimage, lowW.index, lowW.siblingPath))
            (some lowW.leafPreimage) none
          ⟨.ok (), { sm1 with trace := sm1.trace.traceEvent ev }, db1⟩
        else ⟨.error .valueMismatchWrite, sm1, db1⟩
      | some insertion =>
        let ev : TraceEvent := .publicStorageWrite contractAddress slot value protocolWrite
          (some (lowW.leafPreimage, lowW.index, lowW.siblingPath))
          (some { lowW.leafPreimage with key := leafSlot, value := value })
          (some insertion.siblingPath)
        ⟨.ok (), { sm1 with trace := sm1.trace.traceEvent ev }, db1⟩
  else
    let ev : TraceEvent := .publicStorageWrite contractAddress slot value protocolWrite
      none none none
    ⟨.ok (), { sm1 with trace := sm1.trace.traceEvent ev }, db⟩

/-- readStorage(contractAddress, slot): resolve the value through the Value
Cache (default 0); in Merkle mode fetch the leaf or low leaf with its
sibling path, assert cache/tree value agreement when the leaf is present and
the low-leaf skip invariant when absent, and trace the read with the
witness; the cache-resolved value is returned in either mode. -/
def AvmPersistableStateManager.readStorage (sm : AvmPersistableStateManager) (db : WorldDB)
    (contractAddress slot : Fr) : OpResult Fr :=
  let value := (sm.publicStorage.read db contractAddress slot).value
  let leafSlot := computePublicDataTreeLeafSlot contractAddress slot
  if sm.doMerkleOperations then
    match getLeafOrLowLeafInfo db.trees.publicDataTree leafSlot with
    | .error e => ⟨.error e, sm, db⟩
    | .ok (leafPreimage, leafIndex, alreadyPresent) =>
      let siblingPath := getSiblingPath db.trees.publicDataTree leafIndex
      let ev : TraceEvent := .publicStorageRead contractAddress slot value
        (some (leafPreimage, leafIndex, siblingPath))
      if alreadyPresent then
        if leafPreimage.value = value then
          ⟨.ok value, { sm with trace := sm.trace.traceEvent ev }, db⟩
        else ⟨.error .valueMismatchRead, sm, db⟩
      else
        if leafPreimage.key < leafSlot ∧
            (leafPreimage.nextIndex = 0 ∨ leafPreimage.nextKey > leafSlot) then
          ⟨.ok value, { sm with trace := sm.trace.traceEvent ev }, db⟩
        else ⟨.error .publicDataSkipInvariant, sm, db⟩
  else
    let ev : TraceEvent := .publicStorageRead contractAddress slot value none
    ⟨.ok value, { sm with trace := sm.trace.traceEvent ev }, db⟩

/-- peekStorage(contractAddress, slot): read through the Value Cache without
tracing; nothing is mutated and no tree witness is fetched. -/
def AvmPersistableStateManager.peekStorage (sm : AvmPersistableStateManager) (db : WorldDB)
    (contractAddress slot : Fr) : OpResult Fr :=
  ⟨.ok (sm.publicStorage.read db contractAddress slot).value, sm, db⟩

/-- checkNoteHashExists(contractAddress, noteHash, leafIndex): fetch the raw
leaf value at the index (0 when absent), compare with the expected unsiloed
hash, trace the result (plus sibling path in Merkle mode); equality failure
is not an error. -/
def AvmPersistableStateManager.checkNoteHashExists (sm : AvmPersistableStateManager)
    (db : WorldDB) (contractAddress noteHash leafIndex : Fr) : OpResult Bool :=
  let gotLeafValue := (db.getCommitmentValue leafIndex).getD 0
  let found := gotLeafValue == noteHash
  if sm.doMerkleOperations then
    let ev : TraceEvent := .noteHashCheck contractAddress gotLeafValue leafIndex found
      (some (appendTreeSiblingPath db.trees.noteHashTree leafIndex))
    ⟨.ok found, { sm with trace := sm.trace.traceEvent ev }, db⟩
  else
    let ev : TraceEvent := .noteHashCheck contractAddress gotLeafValue leafIndex found none
    ⟨.ok found, { sm with trace := sm.trace.traceEvent ev }, db⟩

/-- getNullifierMembership(siloedNullifier): consult the Append Set Cache
plus persistent accessor; in Merkle mode fetch the leaf or low leaf with its
path, assert that cache and tree agree on existence, and on absence assert
the low-leaf skip invariant; returns (exists, preimage, index, path), with
empty witness data in non-Merkle mode. -/
def AvmPersistableStateManager.getNullifierMembership (sm : AvmPersistableStateManager)
    (db : WorldDB) (siloedNullifier : Fr) :
    OpResult (Bool × IndexedLeaf × Nat × List Fr) :=
  let nullifierExists := (sm.nullifiers.checkExists db siloedNullifier).1
  if sm.doMerkleOperations then
    match getLeafOrLowLeafInfo db.trees.nullifierTree siloedNullifier with
    | .error e => ⟨.error e, sm, db⟩
    | .ok (leafPreimage, leafIndex, alreadyPresent) =>
      let leafPath := getSiblingPath db.trees.nullifierTree leafIndex
      if alreadyPresent = nullifierExists then
        if nullifierExists then
          ⟨.ok (nullifierExists, leafPreimage, leafIndex, leafPath), sm, db⟩
        else
          if leafPreimage.key < siloedNullifier ∧
              (leafPreimage.nextIndex = 0 ∨ leafPreimage.nextKey > siloedNullifier) then
            ⟨.ok (nullifierExists, leafPreimage, leafIndex, leafPath), sm, db⟩
          else ⟨.error .nullifierSkipInvariant, sm, db⟩
      else ⟨.error .nullifierTreeDesync, sm, db⟩
  else
    ⟨.ok (nullifierExists, emptyLeaf, 0, []), sm, db⟩

/-- writeSiloedNullifier(siloedNullifier): in Merkle mode, look the nullifier
up in the tree first - when already present, trace the membership witness as
a nullifier check (a read, not a write) and throw NullifierCollisionError;
otherwise append to the Append Set Cache, sequential-insert into the
nullifier tree and trace the new nullifier with low-leaf and insertion
witnesses.  In non-Merkle mode append to the cache and trace a plain hint
(the cache itself does not reject duplicates). -/
def AvmPersistableStateManager.writeSiloedNullifier (sm : AvmPersistableStateManager)
    (db : WorldDB) (siloedNullifier : Fr) : OpResult Unit :=
  if sm.doMerkleOperations then
    match getLeafOrLowLeafInfo db.trees.nullifierTree siloedNullifier with
    | .error e => ⟨.error e, sm, db⟩
    | .ok (preimage, index, alreadyPresent) =>
      if alreadyPresent then
        let ev : TraceEvent := .nullifierCheck siloedNullifier true
          (some (preimage, index, getSiblingPath db.trees.nullifierTree index))
        ⟨.error .nullifierCollision, { sm with trace := sm.trace.traceEvent ev }, db⟩
      else
        let sm1 := { sm with nullifiers := sm.nullifiers.append siloedNullifier }
        match sequentialInsert db.trees.nullifierTree siloedNullifier 0 with
        | none => ⟨.error .insertionFailed, sm1, db⟩
        | some (tree1, lowW, insW) =>
          let db1 := { db with trees := { db.trees with nullifierTree := tree1 } }
          match insW with
          | none => ⟨.error .insertionFailed, sm1, db1⟩
          | some insertion =>
            let ev : TraceEvent := .newNullifier siloedNullifier
              (some (lowW.leafPreimage, lowW.index, lowW.siblingPath,
                     insertion.siblingPath))
            ⟨.ok (), { sm1 with trace := sm1.trace.traceEvent ev }, db1⟩
  else
    let ev : TraceEvent := .newNullifier siloedNullifier none
    ⟨.ok (), { sm with
        nullifiers := sm.nullifiers.append siloedNullifier,
        trace := sm.trace.traceEvent ev }, db⟩

/-- Sequential processing loop of writeSiloedNullifiersFromPrivate. -/
def writeSiloedNullifiersGo :
    AvmPersistableStateManager → WorldDB → List Fr → OpResult Unit
  | sm, db, [] => ⟨.ok (), sm, db⟩
  | sm, db, n :: rest =>
    match sm.writeSiloedNullifier db n with
    | ⟨.ok _, sm1, db1⟩ => writeSiloedNullifiersGo sm1 db1 rest
    | ⟨.error e, sm1, db1⟩ => ⟨.error e, sm1, db1⟩

/-- writeSiloedNullifiersFromPrivate(siloedNullifiers): write the non-empty
(non-zero) entries, in list order, via writeSiloedNullifier. -/
def AvmPersistableStateManager.writeSiloedNullifiersFromPrivate
    (sm : AvmPersistableStateManager) (db : WorldDB) (siloedNullifiers : List Fr) :
    OpResult Unit :=
  writeSiloedNullifiersGo sm db (siloedNullifiers.filter fun n => n != 0)

/-- Modelled from the spec: the canonical system contract addresses are
protocol constants; their concrete values are opaque to the claims. -/
def CANONICAL_AUTH_REGISTRY_ADDRESS : Fr := 1

/-- Modelled from the spec: the deployer contract's protocol address, under
which deployment nullifiers are siloed. -/
def DEPLOYER_CONTRACT_ADDRESS : Fr := 2

/-- Modelled from the spec: canonical class-registerer protocol address. -/
def REGISTERER_CONTRACT_ADDRESS : Fr := 3

/-- Modelled from the spec: canonical multi-call entrypoint protocol address. -/
def MULTI_CALL_ENTRYPOINT_ADDRESS : Fr := 4

/-- Modelled from the spec: canonical fee juice protocol address. -/
def FEE_JUICE_ADDRESS : Fr := 5

/-- Modelled from the spec: canonical router protocol address. -/
def ROUTER_ADDRESS : Fr := 6

/-- contractAddressIsCanonical: whether an address is one of the canonical
system contract addresses. -/
def contractAddressIsCanonical (contractAddress : Fr) : Bool :=
  contractAddress == CANONICAL_AUTH_REGISTRY_ADDRESS ||
  contractAddress == DEPLOYER_CONTRACT_ADDRESS ||
  contractAddress == REGISTERER_CONTRACT_ADDRESS ||
  contractAddress == MULTI_CALL_ENTRYPOINT_ADDRESS ||
  contractAddress == FEE_JUICE_ADDRESS ||
  contractAddress == ROUTER_ADDRESS

/-- getContractInstance(contractAddress): resolve the instance through the
persistent accessor; for a non-canonical address obtain nullifier-tree
membership of the deployment nullifier (siloed under the deployer contract
address) and assert it agrees with instance existence; canonical addresses
skip the cross-check.  The outcome - instance or none - is traced and
returned; non-existence is not an error. -/
def AvmPersistableStateManager.getContractInstance (sm : AvmPersistableStateManager)
    (db : WorldDB) (contractAddress : Fr) : OpResult (Option ContractInstance) :=
  let instanceOpt := db.getContractInstance contractAddress
  let found := instanceOpt.isSome
  if contractAddressIsCanonical contractAddress then
    let w := if sm.doMerkleOperations then some (emptyLeaf, 0, ([] : List Fr)) else none
    let ev : TraceEvent := .contractInstanceRetrieval contractAddress found instanceOpt w
    ⟨.ok instanceOpt, { sm with trace := sm.trace.traceEvent ev }, db⟩
  else
    match sm.getNullifierMembership db
        (siloNullifier DEPLOYER_CONTRACT_ADDRESS contractAddress) with
    | ⟨.error e, sm1, db1⟩ => ⟨.error e, sm1, db1⟩
    | ⟨.ok (existsInTree, leafPreimage, leafIndex, leafPath), sm1, db1⟩ =>
      if found = existsInTree then
        let w := if sm1.doMerkleOperations then some (leafPreimage, leafIndex, leafPath)
                 else none
        let ev : TraceEvent := .contractInstanceRetrieval contractAddress found instanceOpt w
        ⟨.ok instanceOpt, { sm1 with trace := sm1.trace.traceEvent ev }, db1⟩
      else ⟨.error .contractInstanceDesync, sm1, db1⟩

/-- Shared tail of getBytecode: on existence fetch the contract class and
bytecode commitment (both asserted present), then trace; on non-existence
trace the negative outcome and return none. -/
def bytecodeTail (sm : AvmPersistableStateManager) (db : WorldDB) (contractAddress : Fr)
    (instanceOpt : Option ContractInstance) (found : Bool)
    (w : IndexedLeaf × Nat × List Fr) : OpResult (Option (List Fr)) :=
  let wOpt := if sm.doMerkleOperations then some w else none
  match instanceOpt with
  | some inst =>
    match db.getContractClass inst.contractClassId with
    | none => ⟨.error .contractClassMissing, sm, db⟩
    | some contractClass =>
      match db.getBytecodeCommitment inst.contractClassId with
      | none => ⟨.error .bytecodeCommitmentMissing, sm, db⟩
      | some _ =>
        let ev : TraceEvent := .bytecodeRetrieval contractAddress found wOpt
        ⟨.ok (some contractClass.packedBytecode),
         { sm with trace := sm.trace.traceEvent ev }, db⟩
  | none =>
    let ev : TraceEvent := .bytecodeRetrieval contractAddress found wOpt
    ⟨.ok none, { sm with trace := sm.trace.traceEvent ev }, db⟩

/-- getBytecode(contractAddress): same canonical / deployment-nullifier
cross-check as getContractInstance, then resolve class and bytecode;
non-existence is a traced outcome returning none. -/
def AvmPersistableStateManager.getBytecode (sm : AvmPersistableStateManager)
    (db : WorldDB) (contractAddress : Fr) : OpResult (Option (List Fr)) :=
  let instanceOpt := db.getContractInstance contractAddress
  let found := instanceOpt.isSome
  if contractAddressIsCanonical contractAddress then
    bytecodeTail sm db contractAddress instanceOpt found (emptyLeaf, 0, [])
  else
    match sm.getNullifierMembership db
        (siloNullifier DEPLOYER_CONTRACT_ADDRESS contractAddress) with
    | ⟨.error e, sm1, db1⟩ => ⟨.error e, sm1, db1⟩
    | ⟨.ok (existsInTree, leafPreimage, leafIndex, leafPath), sm1, db1⟩ =>
      if found = existsInTree then
        bytecodeTail sm1 db1 contractAddress instanceOpt found
          (leafPreimage, leafIndex, leafPath)
      else ⟨.error .contractInstanceDesync, sm1, db1⟩

theorem getLeafOrLowLeafInfo_eq_ok {tree : IndexedTree} {key : Fr} {i : Nat} {ap : Bool}
    {leaf : IndexedLeaf}
    (hpv : getPreviousValueIndex tree key = some (i, ap)) (hget : tree[i]? = some leaf) :
    getLeafOrLowLeafInfo tree key = .ok (leaf, i, ap) := by
  simp [getLeafOrLowLeafInfo, hpv, hget]

theorem getLeafOrLowLeafInfo_ok_inv {tree : IndexedTree} {key : Fr} {i : Nat} {ap : Bool}
    {leaf : IndexedLeaf}
    (h : getLeafOrLowLeafInfo tree key = .ok (leaf, i, ap)) :
    getPreviousValueIndex tree key = some (i, ap) ∧ tree[i]? = some leaf := by
  cases hpv : getPreviousValueIndex tree key with
  | none => simp only [getLeafOrLowLeafInfo, hpv] at h; exact Except.noConfusion h
  | some p =>
    obtain ⟨j, ap'⟩ := p
    simp only [getLeafOrLowLeafInfo, hpv] at h
    cases hget : tree[j]? with
    | none => simp only [hget] at h; exact Except.noConfusion h
    | some leaf' =>
      simp only [hget] at h
      obtain ⟨h1, h2, h3⟩ : leaf' = leaf ∧ j = i ∧ ap' = ap := by simpa using h
      rw [h2, h1] at hget
      exact ⟨by rw [h2, h3], hget⟩

theorem getLeafOrLowLeafInfo_error_inv {tree : IndexedTree} {key : Fr} {e : AvmError}
    (h : getLeafOrLowLeafInfo tree key = .error e) :
    e = .lowLeafIndexNotFound ∨ e = .lowLeafPreimageNotFound := by
  cases hpv : getPreviousValueIndex tree key with
  | none =>
    simp only [getLeafOrLowLeafInfo, hpv] at h
    exact Or.inl (Except.error.inj h).symm
  | some p =>
    obtain ⟨j, ap'⟩ := p
    simp only [getLeafOrLowLeafInfo, hpv] at h
    cases hget : tree[j]? with
    | none =>
      simp only [hget] at h
      exact Or.inr (Except.error.inj h).symm
    | some leaf' =>
      simp only [hget] at h
      exact Except.noConfusion h

/-- A Value Cache whose own overlay starts with a matching entry resolves to
that entry's value. -/
theorem PublicStorage.readCached_own_head (ps : PublicStorage) (a s v : Fr)
    (rest : List (Fr × Fr × Fr)) (h : ps.own = (a, s, v) :: rest) :
    ps.readCached a s = some v := by
  obtain ⟨own, ancestors⟩ := ps
  simp only at h
  subst h
  simp [PublicStorage.readCached, storageEntryMatch]

/-- readStorage never changes the accessor. -/
theorem readStorage_db_frame (sm : AvmPersistableStateManager) (db : WorldDB)
    (a s : Fr) : (sm.readStorage db a s).db = db := by
  unfold AvmPersistableStateManager.readStorage
  dsimp only
  repeat' split
  all_goals rfl

/-- Whenever readStorage succeeds, its result is the cache-resolved value. -/
theorem readStorage_ok_val {sm : AvmPersistableStateManager} {db : WorldDB}
    {a s v : Fr} (h : (sm.readStorage db a s).result = .ok v) :
    v = (sm.publicStorage.read db a s).value := by
  unfold AvmPersistableStateManager.readStorage at h
  dsimp only at h
  split at h
  · split at h
    · exact absurd h (by simp)
    · split at h
      · split at h
        · simpa using h.symm
        · exact absurd h (by simp)
      · split at h
        · simpa using h.symm
        · exact absurd h (by simp)
  · simpa using h.symm

/-- readStorage succeeds with the cache-resolved value when, in Merkle mode,
the leaf slot is present in the tree with that same value. -/
theorem readStorage_ok_of_tree_value {sm : AvmPersistableStateManager} {db : WorldDB}
    {a s v : Fr}
    (hval : (sm.publicStorage.read db a s).value = v)
    (htree : sm.doMerkleOperations = true →
      ∃ j leaf, getPreviousValueIndex db.trees.publicDataTree
          (computePublicDataTreeLeafSlot a s) = some (j, true) ∧
        db.trees.publicDataTree[j]? = some leaf ∧ leaf.value = v) :
    (sm.readStorage db a s).result = .ok v := by
  cases hmode : sm.doMerkleOperations with
  | false => simp [AvmPersistableStateManager.readStorage, hmode, hval]
  | true =>
    obtain ⟨j, leaf, hpv, hget, hlv⟩ := htree hmode
    have hinfo := getLeafOrLowLeafInfo_eq_ok hpv hget
    simp [AvmPersistableStateManager.readStorage, hmode, hinfo, hval, hlv]

/-- getNullifierMembership never changes the state manager or the accessor. -/
theorem getNullifierMembership_frame (sm : AvmPersistableStateManager) (db : WorldDB)
    (n : Fr) : (sm.getNullifierMembership db n).sm = sm ∧
      (sm.getNullifierMembership db n).db = db := by
  unfold AvmPersistableStateManager.getNullifierMembership
  dsimp only
  repeat' split
  all_goals exact ⟨rfl, rfl⟩

/-- Sentinel-only indexed tree used by the concrete scenarios. -/
def exTree : IndexedTree := [⟨0, 0, 0, 0⟩]

/-- Example accessor state: sentinel-seeded indexed trees, a small note-hash
tree, no contract data, no open checkpoints. -/
def exDB : WorldDB :=
  { trees := { publicDataTree := exTree, nullifierTree := exTree,
               noteHashTree := [11, 22], l1ToL2MessageTree := [] },
    contractInstances := [], contractClasses := [], bytecodeCommitments := [],
    checkpoints := [] }

/-- Example state manager with empty caches and trace. -/
def exSM (merkle : Bool) : AvmPersistableStateManager :=
  { alreadyMergedIntoParent := false, trace := ⟨[]⟩,
    publicStorage := ⟨[], []⟩, nullifiers := ⟨[], []⟩,
    doMerkleOperations := merkle, firstNullifier := 1 }

/-- Claim C8: checkNoteHashExists returns, and never errors, exactly whether
the raw leaf value fetched at the given leaf index from the persistent
note-hash tree (taken as 0 when the leaf is absent) equals the given
unsiloed note hash; the comparison result is traced and the accessor is
untouched. -/
theorem c8_checkNoteHashExists (sm : AvmPersistableStateManager) (db : WorldDB)
    (contractAddress noteHash leafIndex : Fr) :
    (sm.checkNoteHashExists db contractAddress noteHash leafIndex).result
      = .ok (((db.getCommitmentValue leafIndex).getD 0) == noteHash) ∧
    (sm.checkNoteHashExists db contractAddress noteHash leafIndex).db = db ∧
    ∃ w, (sm.checkNoteHashExists db contractAddress noteHash leafIndex).sm.trace.events
      = sm.trace.events ++
        [.noteHashCheck contractAddress ((db.getCommitmentValue leafIndex).getD 0)
          leafIndex (((db.getCommitmentValue leafIndex).getD 0) == noteHash) w] := by
  cases hmode : sm.doMerkleOperations with
  | false =>
    refine ⟨?_, ?_, none, ?_⟩ <;>
      simp [AvmPersistableStateManager.checkNoteHashExists, hmode, Trace.traceEvent]
  | true =>
    refine ⟨?_, ?_, some (appendTreeSiblingPath db.trees.noteHashTree leafIndex), ?_⟩ <;>
      simp [AvmPersistableStateManager.checkNoteHashExists, hmode, Trace.traceEvent]

/-- Claim C9: peekStorage returns exactly the cache-resolved value that
readStorage returns, while leaving the state manager (hence the trace) and
the accessor (hence every tree) untouched in either mode; whenever
readStorage succeeds its value agrees with peekStorage's, and readStorage
also leaves the accessor untouched. -/
theorem c9_peekStorage (sm : AvmPersistableStateManager) (db : WorldDB)
    (contractAddress slot : Fr) :
    sm.peekStorage db contractAddress slot
      = ⟨.ok (sm.publicStorage.read db contractAddress slot).value, sm, db⟩ ∧
    (∀ v, (sm.readStorage db contractAddress slot).result = .ok v →
      (sm.peekStorage db contractAddress slot).result = .ok v ∧
      (sm.readStorage db contractAddress slot).db = db) := by
  refine ⟨rfl, fun v hv => ⟨?_, readStorage_db_frame sm db contractAddress slot⟩⟩
  rw [readStorage_ok_val hv]
  rfl

/-- Witness for claim C9 at a concrete input on which readStorage succeeds. -/
theorem c9_peekStorage_witness :
    ((exSM false).peekStorage exDB 1 2).result = .ok 0 ∧
    ((exSM false).readStorage exDB 1 2).db = exDB :=
  (c9_peekStorage (exSM false) exDB 1 2).2 0 (by decide)

/-- Claim C10: writeSiloedNullifiersFromPrivate writes exactly the non-zero
entries in list order via writeSiloedNullifier: a zero head is silently
skipped (so it can neither collide nor be appended), processing any list
equals processing its non-zero filter, and a non-zero head is handed to
writeSiloedNullifier with processing continuing on the state that call
leaves (stopping at its error). -/
theorem c10_writeSiloedNullifiersFromPrivate
    (sm : AvmPersistableStateManager) (db : WorldDB) (n : Fr) (rest : List Fr) :
    sm.writeSiloedNullifiersFromPrivate db (0 :: rest)
      = sm.writeSiloedNullifiersFromPrivate db rest ∧
    (∀ l : List Fr, sm.writeSiloedNullifiersFromPrivate db l
      = sm.writeSiloedNullifiersFromPrivate db (l.filter fun x => x != 0)) ∧
    (n ≠ 0 →
      sm.writeSiloedNullifiersFromPrivate db (n :: rest)
        = match sm.writeSiloedNullifier db n with
          | ⟨.ok _, sm1, db1⟩ => sm1.writeSiloedNullifiersFromPrivate db1 rest
          | ⟨.error e, sm1, db1⟩ => ⟨.error e, sm1, db1⟩) := by
  refine ⟨?_, ?_, ?_⟩
  · simp [AvmPersistableStateManager.writeSiloedNullifiersFromPrivate]
  · intro l
    simp [AvmPersistableStateManager.writeSiloedNullifiersFromPrivate, List.filter_filter]
  · intro hn
    have hfil : ((n :: rest).filter fun x => x != 0)
        = n :: (rest.filter fun x => x != 0) := by
      simp [List.filter_cons, hn]
    simp only [AvmPersistableStateManager.writeSiloedNullifiersFromPrivate, hfil,
      writeSiloedNullifiersGo]

/-- Witness for claim C10 at a concrete non-zero nullifier. -/
theorem c10_writeSiloedNullifiersFromPrivate_witness :
    (exSM false).writeSiloedNullifiersFromPrivate exDB (5 :: [])
      = match (exSM false).writeSiloedNullifier exDB 5 with
        | ⟨.ok _, sm1, db1⟩ => sm1.writeSiloedNullifiersFromPrivate db1 []
        | ⟨.error e, sm1, db1⟩ => ⟨.error e, sm1, db1⟩ :=
  (c10_writeSiloedNullifiersFromPrivate (exSM false) exDB 5 []).2.2 (by decide)

/-- A merge or reject of an unresolved fork consumes its one-shot flag, even
when the checkpoint operation then fails. -/
theorem _merge_marks_resolved {p f : AvmPersistableStateManager} {db : WorldDB}
    {reverted : Bool} (hflag : f.alreadyMergedIntoParent = false) :
    (p._merge f db reverted).forked.alreadyMergedIntoParent = true := by
  unfold AvmPersistableStateManager._merge
  dsimp only
  rw [hflag]
  simp only [Bool.false_eq_true, if_false]
  repeat' split
  all_goals rfl

/-- A successful merge or reject leaves the forked state marked resolved. -/
theorem _merge_ok_forked {p f : AvmPersistableStateManager} {db : WorldDB}
    {reverted : Bool} {q f1 : AvmPersistableStateManager} {db1 : WorldDB}
    (h : p._merge f db reverted = ⟨.ok (), q, f1, db1⟩) :
    f1.alreadyMergedIntoParent = true := by
  unfold AvmPersistableStateManager._merge at h
  dsimp only at h
  repeat' split at h
  all_goals
    first
    | exact (congrArg (fun r => (MergeResult.forked r).alreadyMergedIntoParent) h).symm
    | exact absurd (congrArg MergeResult.result h) (by simp)

/-- Merging or rejecting an already-resolved fork fails the fatal assertion
and changes nothing. -/
theorem _merge_already_resolved {p2 f1 : AvmPersistableStateManager} {db2 : WorldDB}
    {r2 : Bool} (hflag : f1.alreadyMergedIntoParent = true) :
    p2._merge f1 db2 r2 = ⟨.error .doubleMerge, p2, f1, db2⟩ := by
  simp [AvmPersistableStateManager._merge, hflag]

/-- Claim C4: a fork starts unresolved; the first merge or reject call marks
it resolved (the one-shot flag is consumed even if the checkpoint operation
then fails); and once a merge or reject has succeeded on a fork, any further
merge or reject of the same fork fails the fatal double-resolution assertion,
changing nothing - a fork is resolved at most once. -/
theorem c4_no_double_resolution :
    (∀ (sm : AvmPersistableStateManager) (db : WorldDB),
      ((sm.fork db).1).alreadyMergedIntoParent = false) ∧
    (∀ (p f : AvmPersistableStateManager) (db : WorldDB) (reverted : Bool),
      f.alreadyMergedIntoParent = false →
      (p._merge f db reverted).forked.alreadyMergedIntoParent = true) ∧
    (∀ (p f : AvmPersistableStateManager) (db : WorldDB) (reverted : Bool)
       (q f1 : AvmPersistableStateManager) (db1 : WorldDB),
      p._merge f db reverted = ⟨.ok (), q, f1, db1⟩ →
      ∀ (p2 : AvmPersistableStateManager) (db2 : WorldDB) (r2 : Bool),
        p2._merge f1 db2 r2 = ⟨.error .doubleMerge, p2, f1, db2⟩) := by
  refine ⟨fun sm db => rfl, fun p f db reverted hflag => _merge_marks_resolved hflag, ?_⟩
  intro p f db reverted q f1 db1 h p2 db2 r2
  exact _merge_already_resolved (_merge_ok_forked h)

/-- Concrete fork used in the claim C4 witness. -/
def c4fork : AvmPersistableStateManager × WorldDB := (exSM false).fork exDB

/-- Concrete first (successful) merge used in the claim C4 witness. -/
def c4m : MergeResult := (exSM false)._merge c4fork.1 c4fork.2 false

/-- Witness for claim C4: after a concrete successful merge, a second merge
attempt on the same fork fails the double-resolution assertion. -/
theorem c4_no_double_resolution_witness :
    (exSM false)._merge c4m.forked exDB true
      = ⟨.error .doubleMerge, exSM false, c4m.forked, exDB⟩ :=
  c4_no_double_resolution.2.2 (exSM false) c4fork.1 c4fork.2 false c4m.parent c4m.forked
    c4m.db (by decide) (exSM false) exDB true

/-- Claim C3: on a well-formed persistent indexed tree, a lookup that reports
the queried key absent returns a low-leaf preimage with key strictly below
the queried key and either no successor or a successor key strictly above
it; consequently the fatal skip-invariant assertions of readStorage (in
Merkle mode) and getNullifierMembership never fire under this precondition
on the persistent accessor. -/
theorem c3_low_leaf_skip_invariant (sm : AvmPersistableStateManager) (db : WorldDB)
    (contractAddress slot siloedNullifier : Fr) :
    (∀ (tree : IndexedTree) (key : Fr) (i : Nat) (leaf : IndexedLeaf),
      TreeWF tree → getLeafOrLowLeafInfo tree key = .ok (leaf, i, false) →
      leaf.key < key ∧ (leaf.nextIndex = 0 ∨ leaf.nextKey > key)) ∧
    (TreeWF db.trees.publicDataTree →
      (sm.readStorage db contractAddress slot).result
        ≠ .error .publicDataSkipInvariant) ∧
    (TreeWF db.trees.nullifierTree →
      (sm.getNullifierMembership db siloedNullifier).result
        ≠ .error .nullifierSkipInvariant) := by
  have hskip : ∀ (tree : IndexedTree) (key : Fr) (i : Nat) (leaf : IndexedLeaf),
      TreeWF tree → getLeafOrLowLeafInfo tree key = .ok (leaf, i, false) →
      leaf.key < key ∧ (leaf.nextIndex = 0 ∨ leaf.nextKey > key) := by
    intro tree key i leaf hwf hinfo
    obtain ⟨hpv, hget⟩ := getLeafOrLowLeafInfo_ok_inv hinfo
    exact lowLeaf_skips hwf hpv hget
  refine ⟨hskip, ?_, ?_⟩
  · intro hwf
    cases hmode : sm.doMerkleOperations with
    | false => simp [AvmPersistableStateManager.readStorage, hmode]
    | true =>
      cases hinfo : getLeafOrLowLeafInfo db.trees.publicDataTree
          (computePublicDataTreeLeafSlot contractAddress slot) with
      | error e =>
        rcases getLeafOrLowLeafInfo_error_inv hinfo with he | he <;>
          simp [AvmPersistableStateManager.readStorage, hmode, hinfo, he]
      | ok t =>
        obtain ⟨leaf, i, ap⟩ := t
        cases hap : ap with
        | true =>
          rw [hap] at hinfo
          by_cases hv : leaf.value
              = (sm.publicStorage.read db contractAddress slot).value <;>
            simp [AvmPersistableStateManager.readStorage, hmode, hinfo, hv]
        | false =>
          rw [hap] at hinfo
          obtain ⟨h1, h2⟩ := hskip _ _ _ _ hwf hinfo
          simp [AvmPersistableStateManager.readStorage, hmode, hinfo, h1, h2]
  · intro hwf
    cases hmode : sm.doMerkleOperations with
    | false => simp [AvmPersistableStateManager.getNullifierMembership, hmode]
    | true =>
      cases hinfo : getLeafOrLowLeafInfo db.trees.nullifierTree siloedNullifier with
      | error e =>
        rcases getLeafOrLowLeafInfo_error_inv hinfo with he | he <;>
          simp [AvmPersistableStateManager.getNullifierMembership, hmode, hinfo, he]
      | ok t =>
        obtain ⟨leaf, i, ap⟩ := t
        by_cases hagree : ap = (sm.nullifiers.checkExists db siloedNullifier).1
        · cases hexv : (sm.nullifiers.checkExists db siloedNullifier).1 with
          | true =>
            simp [AvmPersistableStateManager.getNullifierMembership, hmode, hinfo,
              hagree, hexv]
          | false =>
            have hap : ap = false := by rw [hagree, hexv]
            rw [hap] at hinfo
            obtain ⟨h1, h2⟩ := hskip _ _ _ _ hwf hinfo
            simp [AvmPersistableStateManager.getNullifierMembership, hmode, hinfo,
              hagree, hexv, h1, h2]
        · simp [AvmPersistableStateManager.getNullifierMembership, hmode, hinfo, hagree]

/-- Witness for claim C3 at a concrete well-formed sentinel tree: the skip
property of the returned low leaf and the absence of both skip-assertion
failures. -/
theorem c3_low_leaf_skip_invariant_witness :
    (emptyLeaf.key < 9 ∧ (emptyLeaf.nextIndex = 0 ∨ emptyLeaf.nextKey > 9)) ∧
    ((exSM true).readStorage exDB 1 2).result ≠ .error .publicDataSkipInvariant ∧
    ((exSM true).getNullifierMembership exDB 5).result
      ≠ .error .nullifierSkipInvariant :=
  ⟨(c3_low_leaf_skip_invariant (exSM true) exDB 1 2 5).1 exTree 9 0 emptyLeaf
      (by unfold TreeWF; decide) (by decide),
   (c3_low_leaf_skip_invariant (exSM true) exDB 1 2 5).2.1 (by unfold TreeWF; decide),
   (c3_low_leaf_skip_invariant (exSM true) exDB 1 2 5).2.2 (by unfold TreeWF; decide)⟩

/-- Appending a nullifier makes it cached. -/
theorem NullifierManager.cachedExists_append (nm : NullifierManager) (n : Fr) :
    (nm.append n).cachedExists n = true := by
  by_cases h : nm.cachedExists n
  · simp [NullifierManager.append, h]
  · unfold NullifierManager.append
    rw [if_neg h]
    simp [NullifierManager.cachedExists]

/-- Claim C2 counterexample: with Merkle operations disabled the state
manager performs no collision check before appending - after siloed
nullifier 5 is already pending in the cache, a second writeSiloedNullifier
of 5 returns successfully instead of throwing NullifierCollisionError as the
claim requires. -/
theorem c2_counterexample_nonmerkle_duplicate_ok :
    ((exSM false).writeSiloedNullifier exDB 5).result = .ok () ∧
    ((exSM false).writeSiloedNullifier exDB 5).sm.nullifiers.cachedExists 5 = true ∧
    (((exSM false).writeSiloedNullifier exDB 5).sm.writeSiloedNullifier
        ((exSM false).writeSiloedNullifier exDB 5).db 5).result = .ok () := by
  decide

/-- Claim C2 (amended): in Merkle mode, writing a siloed nullifier that is
not yet in the nullifier tree succeeds, appending it to the Append Set Cache
and the tree, and a second write of the same siloed nullifier then traces
the membership witness as a nullifier check (a read, not a write) and throws
NullifierCollisionError, leaving the accessor untouched - so the collision
error is raised on the second attempt and not the first.  In non-Merkle mode
the sampled code performs no collision check at this level (the
spec-modelled cache append does not reject duplicates). -/
theorem c2_merkle_second_write_collides
    (sm : AvmPersistableStateManager) (db : WorldDB) (n : Fr)
    (hm : sm.doMerkleOperations = true)
    (hnd : (treeKeys db.trees.nullifierTree).Nodup)
    (pre : IndexedLeaf) (i : Nat)
    (hfirst : getLeafOrLowLeafInfo db.trees.nullifierTree n = .ok (pre, i, false)) :
    (sm.writeSiloedNullifier db n).result = .ok () ∧
    (sm.writeSiloedNullifier db n).sm.nullifiers.cachedExists n = true ∧
    (let sm1 := (sm.writeSiloedNullifier db n).sm
     let db1 := (sm.writeSiloedNullifier db n).db
     (sm1.writeSiloedNullifier db1 n).result = .error .nullifierCollision ∧
     (sm1.writeSiloedNullifier db1 n).db = db1 ∧
     ∃ leaf j, (sm1.writeSiloedNullifier db1 n).sm.trace.events
       = sm1.trace.events ++ [.nullifierCheck n true
           (some (leaf, j, getSiblingPath db1.trees.nullifierTree j))]) := by
  obtain ⟨hpv, hget⟩ := getLeafOrLowLeafInfo_ok_inv hfirst
  cases hseq : sequentialInsert db.trees.nullifierTree n 0 with
  | none => simp [sequentialInsert, hpv, hget] at hseq
  | some trip =>
    obtain ⟨tree1, lowW, insW⟩ := trip
    have hins : ∃ insd, insW = some insd := by
      simp only [sequentialInsert, hpv, hget] at hseq
      exact ⟨_, (congrArg (fun q => q.2.2) (Option.some.inj hseq)).symm⟩
    obtain ⟨insd, hinsd⟩ := hins
    subst hinsd
    have hw : sm.writeSiloedNullifier db n =
        ⟨.ok (), { sm with
            nullifiers := sm.nullifiers.append n,
            trace := sm.trace.traceEvent (.newNullifier n
              (some (lowW.leafPreimage, lowW.index, lowW.siblingPath,
                insd.siblingPath))) },
          { db with trees := { db.trees with nullifierTree := tree1 } }⟩ := by
      simp [AvmPersistableStateManager.writeSiloedNullifier, hm, hfirst, hseq]
    obtain ⟨j, leaf, hpv1, hget1, hkey1, hval1⟩ := sequentialInsert_lookup hnd hseq
    have hinfo1 : getLeafOrLowLeafInfo tree1 n = .ok (leaf, j, true) :=
      getLeafOrLowLeafInfo_eq_ok hpv1 hget1
    rw [hw]
    dsimp only
    refine ⟨rfl, NullifierManager.cachedExists_append sm.nullifiers n, ?_, ?_, leaf, j, ?_⟩
    · simp [AvmPersistableStateManager.writeSiloedNullifier, hm, hinfo1]
    · simp [AvmPersistableStateManager.writeSiloedNullifier, hm, hinfo1]
    · simp [AvmPersistableStateManager.writeSiloedNullifier, hm, hinfo1, Trace.traceEvent]

/-- Witness for the amended claim C2 at a concrete sentinel nullifier tree. -/
theorem c2_merkle_second_write_collides_witness :
    ((exSM true).writeSiloedNullifier exDB 5).result = .ok () ∧
    ((exSM true).writeSiloedNullifier exDB 5).sm.nullifiers.cachedExists 5 = true ∧
    (let sm1 := ((exSM true).writeSiloedNullifier exDB 5).sm
     let db1 := ((exSM true).writeSiloedNullifier exDB 5).db
     (sm1.writeSiloedNullifier db1 5).result = .error .nullifierCollision ∧
     (sm1.writeSiloedNullifier db1 5).db = db1 ∧
     ∃ leaf j, (sm1.writeSiloedNullifier db1 5).sm.trace.events
       = sm1.trace.events ++ [.nullifierCheck 5 true
           (some (leaf, j, getSiblingPath db1.trees.nullifierTree j))]) :=
  c2_merkle_second_write_collides (exSM true) exDB 5 rfl (by decide) emptyLeaf 0
    (by decide)

/-- A lookup over a tree that does not hold the key cannot report it
present. -/
theorem getPreviousValueIndex_ap_false {tree : IndexedTree} {key : Fr} {i : Nat}
    {ap : Bool} (habs : key ∉ treeKeys tree)
    (hpv : getPreviousValueIndex tree key = some (i, ap)) : ap = false := by
  cases ap with
  | false => rfl
  | true =>
    exfalso
    obtain ⟨leaf, hget, hle, hapeq, -⟩ := getPreviousValueIndex_spec hpv
    have hk : leaf.key = key := by simpa using hapeq.symm
    exact habs (List.mem_map.mpr ⟨leaf, List.getElem?_mem hget, hk⟩)

/-- The persistent fallback read returns 0 for a leaf slot absent from the
public data tree. -/
theorem storageRead_absent {db : WorldDB} {a s : Fr}
    (habs : computePublicDataTreeLeafSlot a s ∉ treeKeys db.trees.publicDataTree) :
    storageRead db a s = 0 := by
  unfold storageRead
  cases hpv : getPreviousValueIndex db.trees.publicDataTree
      (computePublicDataTreeLeafSlot a s) with
  | none => rfl
  | some p =>
    obtain ⟨i, ap⟩ := p
    have hap : ap = false := getPreviousValueIndex_ap_false habs hpv
    rw [hap]

/-- readStorage succeeds with the cache-resolved value when the leaf slot is
absent from a well-formed public data tree holding a sentinel leaf. -/
theorem readStorage_ok_of_tree_absent {sm : AvmPersistableStateManager} {db : WorldDB}
    {a s : Fr}
    (hwf : TreeWF db.trees.publicDataTree)
    (habs : computePublicDataTreeLeafSlot a s ∉ treeKeys db.trees.publicDataTree)
    (hsent : ∃ l ∈ db.trees.publicDataTree, l.key = 0) :
    (sm.readStorage db a s).result = .ok (sm.publicStorage.read db a s).value := by
  cases hmode : sm.doMerkleOperations with
  | false => simp [AvmPersistableStateManager.readStorage, hmode]
  | true =>
    have hsome := @getPreviousValueIndex_isSome db.trees.publicDataTree
      (computePublicDataTreeLeafSlot a s)
      (by
        obtain ⟨l, hl, h0⟩ := hsent
        exact ⟨l, hl, by rw [h0]; exact Nat.zero_le _⟩)
    obtain ⟨p, hpv⟩ := Option.isSome_iff_exists.mp hsome
    obtain ⟨i, ap⟩ := p
    have hap : ap = false := getPreviousValueIndex_ap_false habs hpv
    rw [hap] at hpv
    obtain ⟨leaf, hget, -, -, -⟩ := getPreviousValueIndex_spec hpv
    have hskip := lowLeaf_skips hwf hpv hget
    have hinfo := getLeafOrLowLeafInfo_eq_ok hpv hget
    simp [AvmPersistableStateManager.readStorage, hmode, hinfo, hskip.1, hskip.2]

/-- Inversion of a successful writeStorage: the Value Cache received the
write, the rest of the manager is unchanged, checkpoints and the nullifier
tree are untouched, and in Merkle mode the public data tree is exactly the
result of the sequential insert at the computed leaf slot. -/
theorem writeStorage_ok_inv {sm sm1 : AvmPersistableStateManager} {db db1 : WorldDB}
    {a s v : Fr} {pw : Bool}
    (h : sm.writeStorage db a s v pw = ⟨.ok (), sm1, db1⟩) :
    sm1.publicStorage = sm.publicStorage.write a s v ∧
    sm1.doMerkleOperations = sm.doMerkleOperations ∧
    sm1.alreadyMergedIntoParent = sm.alreadyMergedIntoParent ∧
    db1.checkpoints = db.checkpoints ∧
    ((sm.doMerkleOperations = false ∧ db1 = db) ∨
     (sm.doMerkleOperations = true ∧
      ∃ lowW insW, sequentialInsert db.trees.publicDataTree
          (computePublicDataTreeLeafSlot a s) v
          = some (db1.trees.publicDataTree, lowW, insW))) := by
  cases hmode : sm.doMerkleOperations with
  | false =>
    simp only [AvmPersistableStateManager.writeStorage] at h
    try dsimp only at h
    rw [hmode] at h
    simp only [Bool.false_eq_true, if_false] at h
    have hsm := congrArg OpResult.sm h
    have hdb := congrArg OpResult.db h
    try dsimp only at hsm hdb
    exact ⟨by simp [← hsm], by simp [← hsm, hmode], by simp [← hsm],
      by simp [← hdb], Or.inl ⟨rfl, hdb.symm⟩⟩
  | true =>
    simp only [AvmPersistableStateManager.writeStorage] at h
    try dsimp only at h
    rw [hmode] at h
    simp only [if_true] at h
    cases hseq : sequentialInsert db.trees.publicDataTree
        (computePublicDataTreeLeafSlot a s) v with
    | none => rw [hseq] at h; exact absurd (congrArg OpResult.result h) (by simp)
    | some trip =>
      obtain ⟨tree1, lowW, insW⟩ := trip
      rw [hseq] at h
      cases insW with
      | none =>
        try dsimp only at h
        by_cases hv : lowW.leafPreimage.value = v
        · rw [if_pos hv] at h
          have hsm := congrArg OpResult.sm h
          have hdb := congrArg OpResult.db h
          try dsimp only at hsm hdb
          exact ⟨by simp [← hsm], by simp [← hsm, hmode], by simp [← hsm],
            by simp [← hdb], Or.inr ⟨rfl, lowW, none, by simp [hseq, ← hdb]⟩⟩
        · rw [if_neg hv] at h
          exact absurd (congrArg OpResult.result h) (by simp)
      | some insd =>
        try dsimp only at h
        have hsm := congrArg OpResult.sm h
        have hdb := congrArg OpResult.db h
        try dsimp only at hsm hdb
        exact ⟨by simp [← hsm], by simp [← hsm, hmode], by simp [← hsm],
          by simp [← hdb], Or.inr ⟨rfl, lowW, some insd, by simp [hseq, ← hdb]⟩⟩

/-- A merge of an unresolved fork over an open checkpoint commits it and
combines the caches and trace. -/
theorem merge_ok {p f : AvmPersistableStateManager} {db : WorldDB}
    (hflag : f.alreadyMergedIntoParent = false)
    {t : TreeState} {rest : List TreeState} (hcp : db.checkpoints = t :: rest) :
    p.merge f db = ⟨.ok (),
      { p with publicStorage := p.publicStorage.acceptAndMerge f.publicStorage,
               nullifiers := p.nullifiers.acceptAndMerge f.nullifiers,
               trace := p.trace.merge f.trace false },
      { f with alreadyMergedIntoParent := true },
      { db with checkpoints := rest }⟩ := by
  simp [AvmPersistableStateManager.merge, AvmPersistableStateManager._merge, hflag,
    commitCheckpoint, hcp]

/-- Claim C5: after writeStorage(address, slot, value), readStorage of that
slot in the same state manager returns the value; after merging the writing
fork into its parent, the parent's readStorage also returns it; a slot never
written in this manager's overlay chain and absent from the persistent
public data tree reads as 0 (on a well-formed tree holding a sentinel low
leaf); and any successful readStorage returns exactly the cache-resolved
value, in both Merkle and non-Merkle mode. -/
theorem c5_write_then_read (sm : AvmPersistableStateManager) (db : WorldDB)
    (contractAddress slot value : Fr)
    (hnd : (treeKeys db.trees.publicDataTree).Nodup) :
    (∀ sm1 db1, sm.writeStorage db contractAddress slot value false = ⟨.ok (), sm1, db1⟩ →
      (sm1.readStorage db1 contractAddress slot).result = .ok value) ∧
    (∀ smw dbw,
      ((sm.fork db).1).writeStorage ((sm.fork db).2) contractAddress slot value false
        = ⟨.ok (), smw, dbw⟩ →
      (sm.merge smw dbw).result = .ok () ∧
      ((sm.merge smw dbw).parent.readStorage (sm.merge smw dbw).db
          contractAddress slot).result = .ok value) ∧
    (sm.publicStorage.readCached contractAddress slot = none →
      computePublicDataTreeLeafSlot contractAddress slot ∉ treeKeys db.trees.publicDataTree →
      TreeWF db.trees.publicDataTree →
      (∃ l ∈ db.trees.publicDataTree, l.key = 0) →
      (sm.readStorage db contractAddress slot).result = .ok 0) ∧
    (∀ v, (sm.readStorage db contractAddress slot).result = .ok v →
      v = (sm.publicStorage.read db contractAddress slot).value) := by
  refine ⟨?_, ?_, ?_, fun v hv => readStorage_ok_val hv⟩
  · intro sm1 db1 hw
    obtain ⟨hps, hdm, hfl, hcp, hrest⟩ := writeStorage_ok_inv hw
    have hcache : sm1.publicStorage.readCached contractAddress slot = some value :=
      PublicStorage.readCached_own_head sm1.publicStorage contractAddress slot value
        sm.publicStorage.own (by rw [hps]; rfl)
    have hval : (sm1.publicStorage.read db1 contractAddress slot).value = value := by
      simp [PublicStorage.read, hcache]
    refine readStorage_ok_of_tree_value hval ?_
    intro hm1
    rcases hrest with ⟨hm0, hdb⟩ | ⟨hm0, lowW, insW, hseq⟩
    · rw [hdm, hm0] at hm1
      exact absurd hm1 (by simp)
    · obtain ⟨j, leaf, hpv1, hget1, hkey1, hval1⟩ := sequentialInsert_lookup hnd hseq
      exact ⟨j, leaf, hpv1, hget1, hval1⟩
  · intro smw dbw hw
    obtain ⟨hps, hdm, hfl, hcp, hrest⟩ := writeStorage_ok_inv hw
    have hflag : smw.alreadyMergedIntoParent = false := by rw [hfl]; rfl
    have hckpt : dbw.checkpoints = db.trees :: db.checkpoints := by rw [hcp]; rfl
    have hmeq := @merge_ok sm smw dbw hflag db.trees db.checkpoints hckpt
    rw [hmeq]
    dsimp only
    refine ⟨rfl, ?_⟩
    have hvw : smw.publicStorage.own = [(contractAddress, slot, value)] := by
      rw [hps]; rfl
    have hcache : (sm.publicStorage.acceptAndMerge smw.publicStorage).readCached
        contractAddress slot = some value := by
      refine PublicStorage.readCached_own_head _ contractAddress slot value
        sm.publicStorage.own ?_
      simp [PublicStorage.acceptAndMerge, hvw]
    have hval : (({ sm with
        publicStorage := sm.publicStorage.acceptAndMerge smw.publicStorage,
        nullifiers := sm.nullifiers.acceptAndMerge smw.nullifiers,
        trace := sm.trace.merge smw.trace false
        : AvmPersistableStateManager }).publicStorage.read
          { dbw with checkpoints := db.checkpoints } contractAddress slot).value
        = value := by
      simp [PublicStorage.read, hcache]
    refine readStorage_ok_of_tree_value hval ?_
    intro hm1
    rcases hrest with ⟨hm0, hdb⟩ | ⟨hm0, lowW, insW, hseq⟩
    · have hm0' : sm.doMerkleOperations = false := hm0
      rw [hm0'] at hm1
      exact absurd hm1 (by simp)
    · obtain ⟨j, leaf, hpv1, hget1, hkey1, hval1⟩ := sequentialInsert_lookup hnd hseq
      exact ⟨j, leaf, hpv1, hget1, hval1⟩
  · intro hcache habs hwf hsent
    have hval : (sm.publicStorage.read db contractAddress slot).value = 0 := by
      simp [PublicStorage.read, hcache, storageRead_absent habs]
    have := @readStorage_ok_of_tree_absent sm db contractAddress slot hwf habs hsent
    rw [hval] at this
    exact this

/-- Concrete write used by the claim C5 witness (Merkle mode, sentinel tree). -/
def c5w : OpResult Unit := (exSM true).writeStorage exDB 1 2 7 false

/-- Concrete fork-write used by the claim C5 witness. -/
def c5fw : OpResult Unit :=
  (((exSM true).fork exDB).1).writeStorage (((exSM true).fork exDB).2) 1 2 7 false

/-- Witness for claim C5: write-then-read, fork-write-merge-read, the default
0 for a never-written slot, and the cache-resolved value, all at concrete
inputs. -/
theorem c5_write_then_read_witness :
    (c5w.sm.readStorage c5w.db 1 2).result = .ok 7 ∧
    ((exSM true).merge c5fw.sm c5fw.db).result = .ok () ∧
    (((exSM true).merge c5fw.sm c5fw.db).parent.readStorage
        ((exSM true).merge c5fw.sm c5fw.db).db 1 2).result = .ok 7 ∧
    ((exSM true).readStorage exDB 3 4).result = .ok 0 :=
  ⟨(c5_write_then_read (exSM true) exDB 1 2 7 (by decide)).1 c5w.sm c5w.db (by decide),
   ((c5_write_then_read (exSM true) exDB 1 2 7 (by decide)).2.1 c5fw.sm c5fw.db
      (by decide)).1,
   ((c5_write_then_read (exSM true) exDB 1 2 7 (by decide)).2.1 c5fw.sm c5fw.db
      (by decide)).2,
   (c5_write_then_read (exSM true) exDB 3 4 7 (by decide)).2.2.1 (by decide) (by decide)
     (by unfold TreeWF; decide) ⟨emptyLeaf, by decide, rfl⟩⟩

/-- An operation result is determined by its three components. -/
theorem OpResult.ext_eq {α : Type} {r : OpResult α} {x : Except AvmError α}
    {sm1 : AvmPersistableStateManager} {db1 : WorldDB}
    (h1 : r.result = x) (h2 : r.sm = sm1) (h3 : r.db = db1) : r = ⟨x, sm1, db1⟩ := by
  cases r
  simp_all

/-- Claim C7: getContractInstance (and getBytecode) returns none when no
instance exists - a traced, non-error outcome; for a non-canonical address
in Merkle mode it fatally asserts that instance existence as reported by the
persistent accessor equals nullifier-tree membership of the address's
deployment nullifier (siloed under the deployer contract address), failing
with the desync assertion exactly on disagreement; canonical system
addresses skip the cross-check entirely and always succeed. -/
theorem c7_get_contract_instance (sm : AvmPersistableStateManager) (db : WorldDB)
    (contractAddress : Fr) :
    (contractAddressIsCanonical contractAddress = true →
      (sm.getContractInstance db contractAddress).result
        = .ok (db.getContractInstance contractAddress)) ∧
    (∀ (b : Bool) (pre : IndexedLeaf) (j : Nat) (path : List Fr),
      contractAddressIsCanonical contractAddress = false →
      sm.doMerkleOperations = true →
      (sm.getNullifierMembership db
          (siloNullifier DEPLOYER_CONTRACT_ADDRESS contractAddress)).result
        = .ok (b, pre, j, path) →
      (((db.getContractInstance contractAddress).isSome = b →
        (sm.getContractInstance db contractAddress).result
          = .ok (db.getContractInstance contractAddress)) ∧
       ((db.getContractInstance contractAddress).isSome ≠ b →
        (sm.getContractInstance db contractAddress).result
          = .error .contractInstanceDesync))) ∧
    (db.getContractInstance contractAddress = none →
      (contractAddressIsCanonical contractAddress = true ∨
       ∃ pre j path, (sm.getNullifierMembership db
           (siloNullifier DEPLOYER_CONTRACT_ADDRESS contractAddress)).result
         = .ok (false, pre, j, path)) →
      (sm.getContractInstance db contractAddress).result = .ok none ∧
      (sm.getBytecode db contractAddress).result = .ok none ∧
      ∃ w, (sm.getContractInstance db contractAddress).sm.trace.events
        = sm.trace.events
          ++ [.contractInstanceRetrieval contractAddress false none w]) := by
  refine ⟨?_, ?_, ?_⟩
  · intro hcanon
    simp [AvmPersistableStateManager.getContractInstance, hcanon]
  · intro b pre j path hcanon hm hmem
    have hfr := getNullifierMembership_frame sm db
      (siloNullifier DEPLOYER_CONTRACT_ADDRESS contractAddress)
    have hmemeq := OpResult.ext_eq hmem hfr.1 hfr.2
    constructor
    · intro hagree
      simp [AvmPersistableStateManager.getContractInstance, hcanon, hmemeq, hagree]
    · intro hdis
      simp [AvmPersistableStateManager.getContractInstance, hcanon, hmemeq, hdis]
  · intro hnone hside
    by_cases hcanon : contractAddressIsCanonical contractAddress
    · refine ⟨?_, ?_, ?_⟩
      · simp [AvmPersistableStateManager.getContractInstance, hcanon, hnone]
      · simp [AvmPersistableStateManager.getBytecode, hcanon, hnone, bytecodeTail,
          Trace.traceEvent]
      · cases hmode : sm.doMerkleOperations with
        | false =>
          exact ⟨none, by
            simp [AvmPersistableStateManager.getContractInstance, hcanon, hnone,
              hmode, Trace.traceEvent]⟩
        | true =>
          exact ⟨some (emptyLeaf, 0, []), by
            simp [AvmPersistableStateManager.getContractInstance, hcanon, hnone,
              hmode, Trace.traceEvent]⟩
    · have hcanon' : contractAddressIsCanonical contractAddress = false := by
        simpa using hcanon
      rcases hside with hc | ⟨pre, j, path, hmem⟩
      · exact absurd hc hcanon
      · have hfr := getNullifierMembership_frame sm db
          (siloNullifier DEPLOYER_CONTRACT_ADDRESS contractAddress)
        have hmemeq := OpResult.ext_eq hmem hfr.1 hfr.2
        refine ⟨?_, ?_, ?_⟩
        · simp [AvmPersistableStateManager.getContractInstance, hcanon', hmemeq, hnone]
        · simp [AvmPersistableStateManager.getBytecode, hcanon', hmemeq, hnone,
            bytecodeTail, Trace.traceEvent]
        · cases hmode : sm.doMerkleOperations with
          | false =>
            exact ⟨none, by
              simp [AvmPersistableStateManager.getContractInstance, hcanon', hmemeq,
                hnone, hmode, Trace.traceEvent]⟩
          | true =>
            exact ⟨some (pre, j, path), by
              simp [AvmPersistableStateManager.getContractInstance, hcanon', hmemeq,
                hnone, hmode, Trace.traceEvent]⟩

/-- Accessor with one deployed contract instance at address 100, used by the
claim C7 witness. -/
def c7db : WorldDB :=
  { exDB with contractInstances := [(100, ⟨77⟩)] }

/-- Witness for claim C7 at concrete inputs: canonical lookup, non-canonical
agreeing and disagreeing cross-checks, and the traced none outcome. -/
theorem c7_get_contract_instance_witness :
    ((exSM true).getContractInstance exDB DEPLOYER_CONTRACT_ADDRESS).result = .ok none ∧
    ((exSM true).getContractInstance exDB 100).result = .ok none ∧
    ((exSM true).getContractInstance c7db 100).result = .error .contractInstanceDesync ∧
    ((exSM true).getBytecode exDB 100).result = .ok none :=
  ⟨by
    have h := (c7_get_contract_instance (exSM true) exDB DEPLOYER_CONTRACT_ADDRESS).1
      (by decide)
    simpa using h,
   ((c7_get_contract_instance (exSM true) exDB 100).2.1 false emptyLeaf 0 [] (by decide)
      rfl (by decide)).1 (by decide),
   ((c7_get_contract_instance (exSM true) c7db 100).2.1 false emptyLeaf 0 [] (by decide)
      rfl (by decide)).2 (by decide),
   ((c7_get_contract_instance (exSM true) exDB 100).2.2 (by decide)
      (Or.inr ⟨emptyLeaf, 0, [], by decide⟩)).2.1⟩

/-- Concrete fork of the claim C1 scenario. -/
def c1fork : AvmPersistableStateManager × WorldDB := (exSM false).fork exDB

/-- Concrete fork write of the claim C1 scenario. -/
def c1write : OpResult Unit := c1fork.1.writeStorage c1fork.2 1 2 7 false

/-- Claim C1 evaluated at the failing input: with empty pre-fork state the
parent reads (address 1, slot 2) as 0; a fork writes 7 there and the parent
rejects the fork; the reject succeeds, yet the parent afterwards reads 7.
The source's _merge merges the child's Value Cache and Append Set Cache into
the parent before branching on reverted, so reject keeps the child's cache
entries while reverting only the persistent checkpoint, and the pre-fork
value is not restored. -/
theorem c1_reject_keeps_child_cache :
    ((exSM false).readStorage exDB 1 2).result = .ok 0 ∧
    ((exSM false).reject c1write.sm c1write.db).result = .ok () ∧
    (((exSM false).reject c1write.sm c1write.db).parent.readStorage
        ((exSM false).reject c1write.sm c1write.db).db 1 2).result = .ok 7 := by
  decide

end Avm
